import Mathlib

/-!
Verification of the markdown-toc core: the slugifier (`src/lib/utils.ts`),
the heading extractor and TOC renderer (the marked adapter in `src/index.ts`),
and the marker splicer (`src/lib/insert.ts`).  Pure functions are embedded as
Lean functions over `List Char` / `String`; JavaScript regular expressions are
embedded as explicit scanners with the same matching semantics; the external
collaborators (the marked lexer, gray-matter, strip-ansi, diacritics-map) are
modelled at their interface boundary as stated in each doc comment.
-/

namespace MarkdownToc

/-- The set of characters matched by the JavaScript regex class `\s` (and
removed by `String.prototype.trim`): space, tab, line feed, carriage return,
vertical tab, form feed, NBSP, and the Unicode space/separator characters. -/
def isWs (c : Char) : Bool :=
  c = ' ' || c = '\t' || c = '\n' || c = '\r' || c = '\u000B' || c = '\u000C' ||
  c = '\u00A0' || c = '\u1680' || ('\u2000' ≤ c && c ≤ '\u200A') ||
  c = '\u2028' || c = '\u2029' || c = '\u202F' || c = '\u205F' ||
  c = '\u3000' || c = '\uFEFF'

/-- Drop the whitespace prefix of a character list (left half of `trim`). -/
def trimL (l : List Char) : List Char := l.dropWhile isWs

/-- JavaScript `String.prototype.trim`: drop whitespace from both ends.
The right end is trimmed by reversing, dropping the (now leading) whitespace,
and reversing back; then the left end is trimmed. -/
def trimList (l : List Char) : List Char := trimL ((trimL l.reverse).reverse)

/-- `utils.getTitle` (`src/lib/utils.ts`): extract the label of a leading
Markdown-link pattern.  The regex `/^\[([^\]]+)\]/` matches a leading `[`,
then one or more non-`]` characters, then `]`; on a match only the captured
label is returned (the rest of the string is discarded), otherwise the
string is returned unchanged. -/
def getTitle (s : String) : String :=
  match s.data with
  | '[' :: t =>
    let a := t.takeWhile (fun c => c ≠ ']')
    let b := t.dropWhile (fun c => c ≠ ']')
    if a = [] then s
    else match b with
      | ']' :: _ => String.mk a
      | _ => s
  | _ => s

/-- Modelled from the spec: `utils.stripColor` is the external `strip-ansi`
package, declared out of scope ("Strip ANSI/terminal color escape
sequences").  Every ANSI escape sequence matched by that package begins with
U+001B or U+009B, so `strip-ansi` is the identity on strings containing
neither character; every string this development applies it to is such a
string, so it is modelled as the identity. -/
def stripColor (s : String) : String := s

/-- JavaScript `String.prototype.toLowerCase`, restricted to its ASCII
behaviour (every string this development lower-cases is ASCII). -/
def lowerStr (s : String) : String := String.mk (s.data.map Char.toLower)

/-- Scanner for `str.replace(/\s+/g, "-")`: the flag records whether the
scanner is inside a whitespace run (whose first character already emitted the
hyphen). -/
def wsRunsGo : Bool → List Char → List Char
  | _, [] => []
  | inRun, c :: t =>
    if isWs c then
      if inRun then wsRunsGo true t else '-' :: wsRunsGo true t
    else c :: wsRunsGo false t

/-- The replacement `str.replace(/\s+/g, "-")` from `utils.slugify`: each
maximal run of whitespace characters becomes a single hyphen. -/
def wsRunsToHyphen (l : List Char) : List Char := wsRunsGo false l

/-- The replacement `str.replace(/\t/g, "--")` from `utils.slugify`: each tab
becomes a double hyphen. -/
def tabsToDoubleHyphen (l : List Char) : List Char :=
  l.foldr (fun c acc => if c = '\t' then '-' :: '-' :: acc else c :: acc) []

/-- Scanner for the replacement `str.replace(/<\/?[^>]+>/g, "")` shared by
`utils.slugify` and the adapter's `titleize`.  A match is a `<`, at least
one non-`>` character (the optional `/` is subsumed by the `[^>]+` class),
then `>`.  The state buffers, in reverse, the characters read since an
as-yet-unclosed `<`: on `>` the pending tag is stripped when its body is
nonempty and emitted verbatim when it is `<>` (which the regex cannot
match); at the end of input an unclosed `<...` is emitted verbatim, exactly
as the regex engine leaves a failed match position in place. -/
def stripTagsGo : List Char → Option (List Char) → List Char
  | [], none => []
  | [], some buf => '<' :: buf.reverse
  | c :: t, none =>
    if c = '<' then stripTagsGo t (some [])
    else c :: stripTagsGo t none
  | c :: t, some buf =>
    if c = '>' then
      if buf = [] then '<' :: '>' :: stripTagsGo t none
      else stripTagsGo t none
    else stripTagsGo t (some (c :: buf))

/-- The tag-stripping replacement, starting outside any candidate tag. -/
def stripTags (l : List Char) : List Char := stripTagsGo l none

/-- The ASCII punctuation characters removed by `utils.slugify`
(`/[|$&`~=\\/@+*!?({[\]})<>=.,;:'"^]/g`). -/
def punctChars : List Char := "|$&`~=\\/@+*!?(\x7b[]\x7d)<>=.,;:'\"^".data

/-- Remove the `punctChars` set (global replacement with the empty string). -/
def removePunct (l : List Char) : List Char :=
  l.filter (fun c => !(punctChars.contains c))

/-- The CJK punctuation characters removed by `utils.slugify`; the class in
the source contains a literal ASCII space between the two pairs of curly
quotes, so U+0020 is a member of this set as well. -/
def cjkChars : List Char :=
  ['\u3002', '\uFF1F', '\uFF01', '\uFF0C', '\u3001', '\uFF1B',
   '\uFF1A', '\u201C', '\u201D', '\u3010', '\u3011', '\uFF08',
   '\uFF09', '\u3014', '\u3015', '\uFF3B', '\uFF3D', '\uFE43',
   '\uFE44', '\u201C', '\u201D', '\u0020', '\u2018', '\u2019',
   '\uFE41', '\uFE42', '\u2014', '\u2026', '\uFF0D', '\uFF5E',
   '\u300A', '\u300B', '\u3008', '\u3009', '\u300C', '\u300D']

/-- Remove the `cjkChars` set (global replacement with the empty string). -/
def removeCJK (l : List Char) : List Char :=
  l.filter (fun c => !(cjkChars.contains c))

/-- Modelled from the spec: `replaceDiacritics` maps each character in the
range U+00C0..U+017E through the external `diacritics-map` table, leaving
unmapped characters unchanged ("Replace diacritic letters using a fixed
character-to-base-letter lookup table; unmapped characters pass through
unchanged").  No string this development slugifies contains a character in
that range, so the table contents are irrelevant and the empty table is
used. -/
def diacriticsMap : Char → Option Char := fun _ => none

/-- `replaceDiacritics` from `src/lib/utils.ts`: `/[À-ž]/g` replaced through
the diacritics table, other characters kept. -/
def replaceDiacritics (l : List Char) : List Char :=
  l.map (fun c =>
    if 'À' ≤ c && c ≤ 'ž' then (diacriticsMap c).getD c else c)

/-- A value that may be a plain string or an array of strings, as the
`bullets` and `chars` options are typed in `TOCOptions`
(`bullets?: string | string[]`). -/
inductive StrOrArr where
  | str (s : String)
  | arr (l : List String)
deriving DecidableEq

/-- The resolved option set of one adapter call, after the constructor merge
`{firsth1: true, maxdepth: 6, linkify: true, ...options}`.  Fields carry the
same names and defaults as `TOCOptions`; `maxdepth = 0`, `indent = ""`,
`append = ""` and `num = some 0` encode the falsy JavaScript values that the
code's `||` / truthiness tests fall through.  The function-valued escape
hatches `slugify`, `linkify` and `titleize` are modelled in their default
(absent / boolean) forms, which is how every claim below exercises them. -/
structure Options where
  firsth1 : Bool := true
  maxdepth : Nat := 6
  linkify : Bool := true
  titleize : Bool := true
  stripHeadingTags : Bool := true
  bullets : Option StrOrArr := none
  chars : Option StrOrArr := none
  indent : String := "  "
  append : String := ""
  filter : Option (String → Nat → Bool) := none
  num : Option Nat := none

/-- `this.options.maxdepth || 6`: a zero (or absent, but the constructor
merge always supplies 6) maxdepth falls back to 6. -/
def effMaxdepth (o : Options) : Nat := if o.maxdepth = 0 then 6 else o.maxdepth

/-- `this.options.indent || "  "`: an empty indent falls back to two
spaces. -/
def effIndent (o : Options) : String := if o.indent = "" then "  " else o.indent

/-- `utils.slugify` (`src/lib/utils.ts`) with the default (absent)
`options.slugify`: extract the link title, strip colour escapes, lower-case,
replace whitespace runs with `-`, replace tabs with `--`, strip HTML-like
tags unless disabled, remove ASCII and CJK punctuation, replace diacritics,
and append `-N` when a truthy `options.num` is configured. -/
def slugify (opts : Options) (s : String) : String :=
  let s := getTitle s
  let s := stripColor s
  let s := lowerStr s
  let l := wsRunsToHyphen s.data
  let l := tabsToDoubleHyphen l
  let l := if opts.stripHeadingTags then stripTags l else l
  let l := removePunct l
  let l := removeCJK l
  let l := replaceDiacritics l
  match opts.num with
  | some (n + 1) => String.mk l ++ "-" ++ toString (n + 1)
  | _ => String.mk l

/-- The token shapes the adapter inspects, at the interface contract of the
external `marked` lexer: a `kind` discriminant plus the `text` / `tokens` /
`href` fields the adapter reads.  `Option (List Tok)` distinguishes an
absent `tokens` field (`none`, falsy in JavaScript) from a present, possibly
empty array (`some`, always truthy). -/
inductive Tok where
  | heading (depth : Nat) (text : String) (tokens : List Tok)
  | text (text : String)
  | link (text : String) (tokens : Option (List Tok)) (href : String)
  | strong (text : String) (tokens : Option (List Tok))
  | em (text : String) (tokens : Option (List Tok))
  | codespan (text : String)
  | image (text : String)
  | generic (text : Option String) (tokens : Option (List Tok))

mutual

/-- `MarkedAdapter.getTokenText` with its two helpers inlined per token kind:
headings and text tokens yield their `text`; links prefer a non-empty `text`,
then the concatenated child text when a `tokens` array exists, then `href`;
strong/em/codespan prefer a non-empty `text`, then (strong/em only) the
children, else the empty string; images yield the empty string; any other
token yields its string `text` field when present (even when empty),
otherwise its concatenated children, otherwise the empty string. -/
def getTokenText : Tok → String
  | .heading _ text _ => text
  | .text text => text
  | .link text tokens href =>
    if text ≠ "" then text
    else match tokens with
      | some ts => getTokensText ts
      | none => href
  | .strong text tokens =>
    if text ≠ "" then text
    else match tokens with
      | some ts => getTokensText ts
      | none => ""
  | .em text tokens =>
    if text ≠ "" then text
    else match tokens with
      | some ts => getTokensText ts
      | none => ""
  | .codespan text => text
  | .image _ => ""
  | .generic text tokens =>
    match text with
    | some s => s
    | none =>
      match tokens with
      | some ts => getTokensText ts
      | none => ""

/-- Concatenation of `getTokenText` over a child list (the `for` loops in
`getTokenText`'s helpers). -/
def getTokensText : List Tok → String
  | [] => ""
  | t :: ts => getTokenText t ++ getTokensText ts

end

/-- One record of the adapter's `headings` array (`HeadingToken` in
`src/lib/utils.ts`): recovered `content`, generated `slug`, heading level
`lvl`, running index `i`, and duplicate ordinal `seen`. -/
structure HeadingToken where
  content : String
  slug : String
  lvl : Nat
  i : Nat
  seen : Nat
deriving DecidableEq, Repr

/-- The adapter's mutable extraction state: the `seen` map (a string-keyed
JavaScript object, modelled as an association list) and the `headings`
array. -/
structure ExtState where
  seen : List (String × Nat)
  headings : List HeadingToken
deriving DecidableEq, Repr

/-- Association-list lookup for the `seen` object. -/
def seenLookup (m : List (String × Nat)) (k : String) : Option Nat :=
  match m with
  | [] => none
  | (k', v) :: t => if k' = k then some v else seenLookup t k

/-- Association-list store for the `seen` object. -/
def seenStore (m : List (String × Nat)) (k : String) (v : Nat) :
    List (String × Nat) :=
  match m with
  | [] => [(k, v)]
  | (k', v') :: t => if k' = k then (k, v) :: t else (k', v') :: seenStore t k v

/-- The duplicate-tracking step of `processHeadingToken`:
`if (!this.seen[text]) { this.seen[text] = 0 } else { this.seen[text]++ }`
followed by reading `this.seen[text]`.  The truthiness test `!this.seen[text]`
is true both for an absent key and for a stored `0`, so both store `0`; only
a stored non-zero value (which no execution ever produces) would be
incremented.  Returns the value read back and the updated map. -/
def seenUpdate (m : List (String × Nat)) (text : String) :
    Nat × List (String × Nat) :=
  match seenLookup m text with
  | none => (0, seenStore m text 0)
  | some 0 => (0, seenStore m text 0)
  | some (n + 1) => (n + 2, seenStore m text (n + 2))

mutual

/-- `MarkedAdapter.processHeadingToken(token, depth)`: return the state
unchanged when the caller's `depth` argument exceeds the effective maxdepth
or the token is not a heading; otherwise recover the text, slugify it,
update the `seen` map, append a record whose `i` is the current length of
`headings`, and recurse into the heading's child tokens passing the heading's
own depth as the new `depth` argument. -/
def processHeadingToken (opts : Options) (tok : Tok) (depth : Nat)
    (st : ExtState) : ExtState :=
  if depth > effMaxdepth opts then st
  else
    match tok with
    | .heading d text tokens =>
      let txt := getTokenText (.heading d text tokens)
      let slug := slugify opts txt
      let su := seenUpdate st.seen txt
      let h : HeadingToken :=
        { content := txt, slug := slug, lvl := d,
          i := st.headings.length, seen := su.1 }
      processHeadingTokens opts tokens d
        { seen := su.2, headings := st.headings ++ [h] }
    | _ => st

/-- The `for (const childToken of token.tokens)` loop of
`processHeadingToken`. -/
def processHeadingTokens (opts : Options) (toks : List Tok) (depth : Nat)
    (st : ExtState) : ExtState :=
  match toks with
  | [] => st
  | t :: ts =>
    processHeadingTokens opts ts depth (processHeadingToken opts t depth st)

end

/-- `MarkedAdapter.extractHeadings`: walk the lexer's top-level token list in
order and process each heading token (with the default `depth` argument 0). -/
def extractHeadings (opts : Options) (toks : List Tok) : ExtState :=
  toks.foldl
    (fun st t =>
      match t with
      | .heading _ _ _ => processHeadingToken opts t 0 st
      | _ => st)
    { seen := [], headings := [] }

/-- `MarkedAdapter.processHeadings`: drop the first heading unless `firsth1`,
then apply the configured filter predicate (which observes the
already-truncated list; the modelled predicate reads the fields the claims
exercise: the content and the heading's index). -/
def processHeadings (opts : Options) (hs : List HeadingToken) :
    List HeadingToken :=
  let hs := if opts.firsth1 then hs else hs.drop 1
  match opts.filter with
  | none => hs
  | some f => hs.filter (fun h => f h.content h.i)

/-- `MarkedAdapter.getHighestLevel`: 0 for an empty list, else the minimum
`lvl`. -/
def getHighestLevel (hs : List HeadingToken) : Nat :=
  match hs with
  | [] => 0
  | h :: t => t.foldl (fun m x => Nat.min m x.lvl) h.lvl

/-- The bullet-sequence selection of `generateTOCContent`:
`Array.isArray(this.options.bullets) ? this.options.bullets :
this.options.chars || ["-", "*", "+"]`.  A string-valued `bullets` is not an
array, so it falls through to `chars`; a falsy `chars` (absent or the empty
string) falls through to the default array. -/
def resolveBullets (opts : Options) : StrOrArr :=
  match opts.bullets with
  | some (.arr l) => .arr l
  | _ =>
    match opts.chars with
    | none => .arr ["-", "*", "+"]
    | some (.str "") => .arr ["-", "*", "+"]
    | some v => v

/-- `bullets.length` for either shape. -/
def bulletsLength : StrOrArr → Nat
  | .str s => s.length
  | .arr l => l.length

/-- JavaScript indexing `bullets[i]` for either shape, with an `Int` index as
produced by `Math.min(heading.lvl - 1, bullets.length - 1)`: out-of-range
(including negative) indices yield `undefined` (`none`); indexing a string
yields a one-character string. -/
def bulletsGet (b : StrOrArr) (idx : Int) : Option String :=
  if 0 ≤ idx ∧ idx.toNat < bulletsLength b then
    match b with
    | .str s => some (String.mk [s.data.getD idx.toNat ' '])
    | .arr l => some (l.getD idx.toNat "")
  else none

/-- The per-heading bullet of `generateTOCContent`:
`bullets[Math.min(heading.lvl - 1, bullets.length - 1)] || "-"` (an
`undefined` or empty-string bullet falls back to `"-"`). -/
def bulletFor (b : StrOrArr) (lvl : Nat) : String :=
  let idx : Int := min ((lvl : Int) - 1) ((bulletsLength b : Int) - 1)
  match bulletsGet b idx with
  | some s => if s = "" then "-" else s
  | none => "-"

/-- Scanner for `str.replace(/[ \t]+/g, " ")` in the adapter's `titleize`:
the flag records whether the scanner is inside a space/tab run. -/
def spaceTabGo : Bool → List Char → List Char
  | _, [] => []
  | inRun, c :: t =>
    if c = ' ' || c = '\t' then
      if inRun then spaceTabGo true t else ' ' :: spaceTabGo true t
    else c :: spaceTabGo false t

/-- The adapter's private `titleize` in its default (non-function) form:
strip HTML-like tags unless disabled, collapse space/tab runs
(`/[ \t]+/g`) to one space, and trim. -/
def titleizeDefault (opts : Options) (s : String) : String :=
  String.mk (trimList (spaceTabGo false
    (if opts.stripHeadingTags then stripTags s.data else s.data)))

/-- One line of `generateTOCContent` for one heading, given the resolved
bullet sequence and the precomputed highest level: `none` when the heading is
skipped by the maxdepth double-check, otherwise the indented bullet line,
linked (with default-titleized or raw link text) unless `linkify` is
`false`. -/
def tocLine (opts : Options) (b : StrOrArr) (highest : Nat)
    (h : HeadingToken) : Option String :=
  if h.lvl > effMaxdepth opts then none
  else
    let bullet := bulletFor b h.lvl
    let indentLevel := (max 0 ((h.lvl : Int) - (highest : Int))).toNat
    let indentation := String.join (List.replicate indentLevel (effIndent opts))
    some (
      if opts.linkify then
        let linkText :=
          if opts.titleize then titleizeDefault opts h.content else h.content
        indentation ++ bullet ++ " [" ++ linkText ++ "](#" ++ h.slug ++ ")"
      else
        indentation ++ bullet ++ " " ++ h.content)

/-- Join with a single newline (`lines.join("\n")`). -/
def joinLinesNl (lines : List String) : String :=
  match lines with
  | [] => ""
  | [x] => x
  | x :: xs => x ++ "\n" ++ joinLinesNl xs

/-- The final `if (this.options.append) lines.push(...)` step of
`generateTOCContent`. -/
def withAppend (opts : Options) (lines : List String) : List String :=
  if opts.append ≠ "" then lines ++ [opts.append] else lines

/-- `MarkedAdapter.generateTOCContent`: resolve the bullet sequence, emit one
line per (not-skipped) heading, append `options.append` as a final line when
truthy, and join with newlines. -/
def generateTOCContent (opts : Options) (hs : List HeadingToken) : String :=
  joinLinesNl (withAppend opts
    (hs.filterMap (tocLine opts (resolveBullets opts) (getHighestLevel hs))))

/-- The result record of `MarkedAdapter.parse`: rendered `content`, the
`json` heading list, and the `highest` level. -/
structure TOCResult where
  content : String
  json : List HeadingToken
  highest : Nat
deriving DecidableEq, Repr

/-- `MarkedAdapter.parse` applied to the (external) lexer's token list:
extract the headings, apply `processHeadings`, and build the rendered
content, the JSON output (`generateJSONOutput` copies each record's five
public fields, i.e. it is the heading list itself), and the highest level. -/
def adapterParse (opts : Options) (lexed : List Tok) : TOCResult :=
  let st := extractHeadings opts lexed
  let hs := processHeadings opts st.headings
  { content := generateTOCContent opts hs
    json := hs
    highest := getHighestLevel hs }

/-- The fixed prefix `<!-- toc` that every match of the marker regex
`/(?:<!-- toc(?:\s*stop)? -->)/g` begins with. -/
def tocHead : List Char := "<!-- toc".data

/-- Matching of the marker regex after its fixed `<!-- toc` prefix: the
optional group `(?:\s*stop)?` followed by the literal ` -->`.  The greedy
`\s*` can only ever match the maximal whitespace run (backtracking it leaves
a whitespace character where `stop` needs an `s`), so the group matches
exactly when `stop` follows the maximal whitespace run; if ` -->` fails
after the group, the regex backtracks to the empty alternative and requires
` -->` directly. -/
def matchAfterHead (l : List Char) : Option (List Char) :=
  if (l.dropWhile isWs).take 4 = "stop".data then
    if ((l.dropWhile isWs).drop 4).take 4 = " -->".data then
      some (((l.dropWhile isWs).drop 4).drop 4)
    else if l.take 4 = " -->".data then some (l.drop 4)
    else none
  else if l.take 4 = " -->".data then some (l.drop 4)
  else none

/-- One attempted match of the TOC-marker regex at the head of `l`,
returning the remainder after the match. -/
def matchMarker (l : List Char) : Option (List Char) :=
  if l.take 8 = tocHead then matchAfterHead (l.drop 8) else none

/-- `str.split(regex)` for the marker regex: scan left to right; at each
position first try the marker match (cutting a segment and continuing after
the match), otherwise move the scanned character into the current segment.
The first argument is recursion fuel: every step consumes at least one
character, so any fuel exceeding the text length makes the fuel-exhausted
fallback unreachable (`splitAux_fuel` below proves the result independent of
any sufficient fuel). -/
def splitAux : Nat → List Char → List Char → List (List Char)
  | 0, l, cur => [cur.reverse ++ l]
  | fuel + 1, l, cur =>
    match matchMarker l with
    | some rest => cur.reverse :: splitAux fuel rest []
    | none =>
      match l with
      | [] => [cur.reverse]
      | c :: t => splitAux fuel t (c :: cur)

/-- The `split` helper of `src/lib/insert.ts`: split on the marker regex and
trim every segment. -/
def sectionsOf (l : List Char) : List (List Char) :=
  (splitAux (l.length + 1) l []).map trimList

/-- String-level view of `sectionsOf`. -/
def splitMarkers (s : String) : List String :=
  (sectionsOf s.data).map String.mk

/-- `(/\n+$/.exec(str) || [""])[0]`: the maximal run of line feeds at the end
of the document. -/
def trailingNewlines (l : List Char) : List Char :=
  (l.reverse.takeWhile (fun c => c = '\n')).reverse

/-- `sections.join("\n\n")`. -/
def joinSections : List (List Char) → List Char
  | [] => []
  | [x] => x
  | x :: xs => x ++ '\n' :: '\n' :: joinSections xs

/-- The default `options.open` marker text `"<!-- toc -->\n\n"`. -/
def openMarker : List Char := "<!-- toc -->\n\n".data

/-- The default `options.close` marker text `"<!-- tocstop -->"`. -/
def closeMarker : List Char := "<!-- tocstop -->".data

/-- The error thrown on more than one marker pair. -/
def tocErr : String := "markdown-toc only supports one Table of Contents per file."

/-- The external collaborators `insert` delegates to, modelled at their
interface boundary: `tocContent body` is `toc(body, options).content` (the
adapter pipeline run on the external lexer's tokens for `body`);
`matterSplit` / `matterStringify` are gray-matter's front-matter split and
reassembly (`matterSplit` returns the content and the serialized data). -/
structure InsertDeps where
  tocContent : String → String
  matterSplit : String → String × String
  matterStringify : String → String → String

/-- `insert` (`src/lib/insert.ts`) with the default `regex`, `open`, `close`
and absent `toc` options: capture the trailing newline run, split off
front-matter when the document starts with `---`, split the body on the
marker regex with each segment trimmed, fail when there are more than 3
segments, splice a freshly rendered TOC of the **last** segment into a
3-segment (replace the middle) or 2-segment (insert after the opening
marker) split, rejoin with blank lines, append the captured newlines, and
reattach front-matter. -/
def insertE (d : InsertDeps) (str : String) : Except String String :=
  let nl := trailingNewlines str.data
  let fm : Option String :=
    if str.data.take 3 = "---".data then some (d.matterSplit str).2 else none
  let body : String :=
    if str.data.take 3 = "---".data then (d.matterSplit str).1 else str
  let sections := sectionsOf body.data
  if sections.length > 3 then Except.error tocErr
  else
    let finish : List (List Char) → Except String String := fun secs =>
      let r := String.mk (joinSections secs ++ nl)
      match fm with
      | some dta => Except.ok (d.matterStringify r dta)
      | none => Except.ok r
    match sections with
    | [s0, _, s2] =>
      finish [s0, openMarker ++ (d.tocContent (String.mk s2)).data,
              closeMarker, s2]
    | [s0, s1] =>
      finish [s0,
        openMarker ++ (d.tocContent (String.mk s1)).data ++
          '\n' :: '\n' :: closeMarker, s1]
    | other => finish other

/-- Whether `<!-- toc` (the mandatory prefix of every marker match) occurs
anywhere in `l`.  Segments free of this prefix can never start or contain a
marker match. -/
def hasTocB : List Char → Bool
  | [] => false
  | c :: t => if List.take 8 (c :: t) = tocHead then true else hasTocB t

/-- A trivial instance of the external collaborators: an empty rendered TOC
and identity front-matter handling (no input below ever takes the
front-matter branch). -/
def trivialDeps : InsertDeps :=
  { tocContent := fun _ => ""
    matterSplit := fun s => (s, "")
    matterStringify := fun s _ => s }

/-- A sample instance of the external collaborators whose rendered TOC is a
fixed one-item list. -/
def sampleDeps : InsertDeps :=
  { tocContent := fun _ => "- [A](#a)"
    matterSplit := fun s => (s, "")
    matterStringify := fun s _ => s }

/-! Supporting lemmas about trimming and whitespace runs. -/

/-- Dropping a whitespace-only prefix before `trimL`. -/
theorem trimL_ws_append {w x : List Char} (hw : ∀ c ∈ w, isWs c = true) :
    trimL (w ++ x) = trimL x :=
  List.dropWhile_append_of_pos hw

/-- A whitespace-only suffix does not change `trimList`. -/
theorem trimList_append_ws {x w : List Char} (hw : ∀ c ∈ w, isWs c = true) :
    trimList (x ++ w) = trimList x := by
  unfold trimList
  have : trimL ((x ++ w).reverse) = trimL x.reverse := by
    rw [List.reverse_append]
    exact trimL_ws_append (fun c hc => hw c (List.mem_reverse.mp hc))
  rw [this]

/-- A whitespace-only prefix does not change `trimList`. -/
theorem trimList_ws_append {w x : List Char} (hw : ∀ c ∈ w, isWs c = true) :
    trimList (w ++ x) = trimList x := by
  unfold trimList trimL
  rw [List.reverse_append, List.dropWhile_append]
  split
  · rename_i hemp
    have hx : x.reverse.dropWhile isWs = [] := by
      cases h : x.reverse.dropWhile isWs with
      | nil => rfl
      | cons a as => rw [h] at hemp; simp at hemp
    have hwrev : w.reverse.dropWhile isWs = [] :=
      List.dropWhile_eq_nil_iff.mpr
        (fun c hc => hw c (List.mem_reverse.mp hc))
    rw [hwrev, hx]
  · rename_i hemp
    rw [List.reverse_append, List.reverse_reverse]
    exact List.dropWhile_append_of_pos hw

/-- `trimL` is idempotent. -/
theorem trimL_idem (l : List Char) : trimL (trimL l) = trimL l := by
  unfold trimL
  induction l with
  | nil => simp
  | cons c t ih =>
    simp only [List.dropWhile_cons]
    split
    · exact ih
    · rename_i h
      simp only [List.dropWhile_cons, h, if_neg]
      simp [h]

/-- The head of a trimmed-from-the-left list is not whitespace. -/
theorem trimL_head_not_ws {l : List Char} {c : Char}
    (h : (trimL l).head? = some c) : isWs c = false := by
  have := List.head?_dropWhile_not isWs l
  unfold trimL at h
  rw [h] at this
  exact this

/-- A nonempty `trimL` result keeps the last element of its input. -/
theorem trimL_getLast? {l : List Char} (h : trimL l ≠ []) :
    (trimL l).getLast? = l.getLast? := by
  conv_rhs => rw [← List.takeWhile_append_dropWhile (p := isWs) (l := l)]
  rw [List.getLast?_append]
  unfold trimL at h ⊢
  cases hd : (l.dropWhile isWs).getLast? with
  | none => exact absurd (List.getLast?_eq_none_iff.mp hd) h
  | some a => simp [Option.or]

/-- If a list's head is not whitespace, `trimL` leaves it unchanged. -/
theorem trimL_eq_self {l : List Char}
    (h : ∀ c, l.head? = some c → isWs c = false) : trimL l = l := by
  unfold trimL
  cases l with
  | nil => rfl
  | cons c t =>
    have := h c rfl
    simp [List.dropWhile_cons, this]

/-- `trimList` is idempotent. -/
theorem trimList_idem (l : List Char) : trimList (trimList l) = trimList l := by
  by_cases hv : trimList l = []
  · rw [hv]; rfl
  · set u := trimL l.reverse with hu
    set v := trimL u.reverse with hvdef
    have hveq : trimList l = v := rfl
    rw [hveq] at hv ⊢
    have hrev1 : trimL v.reverse = v.reverse := by
      apply trimL_eq_self
      intro c hc
      rw [List.head?_reverse] at hc
      have hvne : v ≠ [] := hv
      have hlast : v.getLast? = u.reverse.getLast? := trimL_getLast? (hvdef ▸ hvne)
      rw [hlast, List.getLast?_reverse] at hc
      exact trimL_head_not_ws (hu ▸ hc)
    show trimL ((trimL v.reverse).reverse) = v
    rw [hrev1, List.reverse_reverse]
    apply trimL_eq_self
    intro c hc
    exact trimL_head_not_ws (hvdef ▸ hc)

/-- The last element of a nonempty `trimList` result is not whitespace. -/
theorem trimList_getLast_not_ws {l : List Char} {c : Char}
    (h : (trimList l).getLast? = some c) : isWs c = false := by
  have hne : trimList l ≠ [] := by
    intro he; rw [he] at h; simp at h
  unfold trimList at h hne
  rw [trimL_getLast? hne, List.getLast?_reverse] at h
  exact trimL_head_not_ws h

/-! Supporting lemmas about marker occurrences (`hasTocB`) and the marker
scanner. -/

/-- A character list containing a line feed is not `tocHead` (which contains
none). -/
theorem ne_tocHead_of_mem_newline {w : List Char} (h : '\n' ∈ w) :
    w ≠ tocHead := by
  intro he
  rw [he] at h
  exact absurd h (by decide)

/-- `hasTocB l = false` means no suffix of `l` starts with `tocHead`. -/
theorem take8_drop_ne_of_hasTocB {l : List Char} (h : hasTocB l = false) :
    ∀ i, ((l.drop i).take 8) ≠ tocHead := by
  induction l with
  | nil =>
    intro i
    rw [List.drop_nil]
    decide
  | cons c t ih =>
    unfold hasTocB at h
    by_cases hc : List.take 8 (c :: t) = tocHead
    · rw [if_pos hc] at h
      cases h
    · rw [if_neg hc] at h
      intro i
      cases i with
      | zero => simpa using hc
      | succ j =>
        rw [List.drop_succ_cons]
        exact ih h j

/-- A cons of a line feed cannot begin a `tocHead` occurrence. -/
theorem hasTocB_cons_nl {l : List Char} (h : hasTocB l = false) :
    hasTocB ('\n' :: l) = false := by
  unfold hasTocB
  rw [if_neg, h]
  cases l with
  | nil => decide
  | cons a as =>
    rw [List.take_succ_cons]
    intro he
    rw [show tocHead = '<' :: "!-- toc".data from rfl] at he
    injection he with h1 _
    exact absurd h1 (by decide)

/-- Gluing two `<!-- toc`-free lists with a line feed stays
`<!-- toc`-free: any occurrence would lie inside one part or contain the
line feed. -/
theorem hasTocB_append_newline {x y : List Char} (hx : hasTocB x = false)
    (hy : hasTocB y = false) : hasTocB (x ++ '\n' :: y) = false := by
  induction x with
  | nil => exact hasTocB_cons_nl hy
  | cons c x' ih =>
    unfold hasTocB at hx
    by_cases hcond : List.take 8 (c :: x') = tocHead
    · rw [if_pos hcond] at hx
      cases hx
    · rw [if_neg hcond] at hx
      show hasTocB ((c :: x') ++ '\n' :: y) = false
      rw [List.cons_append]
      rw [show hasTocB (c :: (x' ++ '\n' :: y))
          = if List.take 8 (c :: (x' ++ '\n' :: y)) = tocHead then true
            else hasTocB (x' ++ '\n' :: y) from rfl]
      rw [if_neg, ih hx]
      by_cases hlen : 8 ≤ (c :: x').length
      · rw [← List.cons_append, List.take_append_of_le_length hlen]
        exact hcond
      · apply ne_tocHead_of_mem_newline
        rw [← List.cons_append, List.take_append_eq_append_take,
          List.take_of_length_le (by omega)]
        apply List.mem_append_right
        have h8 : 8 - (c :: x').length = (8 - (c :: x').length - 1) + 1 := by
          simp only [List.length_cons] at hlen ⊢
          omega
        rw [h8, List.take_succ_cons]
        exact List.mem_cons_self _ _

/-- A run of line feeds is `<!-- toc`-free. -/
theorem hasTocB_nl_run {w : List Char} (hw : ∀ c ∈ w, c = '\n') :
    hasTocB w = false := by
  induction w with
  | nil => rfl
  | cons c t ih =>
    have hc : c = '\n' := hw c (List.mem_cons_self _ _)
    subst hc
    exact hasTocB_cons_nl (ih (fun c hc => hw c (List.mem_cons_of_mem _ hc)))

/-- Appending a run of line feeds preserves `<!-- toc`-freedom. -/
theorem hasTocB_append_nl_run {x w : List Char} (hx : hasTocB x = false)
    (hw : ∀ c ∈ w, c = '\n') : hasTocB (x ++ w) = false := by
  cases w with
  | nil => simpa using hx
  | cons c t =>
    have hc : c = '\n' := hw c (List.mem_cons_self _ _)
    subst hc
    exact hasTocB_append_newline hx
      (hasTocB_nl_run (fun c hc => hw c (List.mem_cons_of_mem _ hc)))

/-- A successful `matchAfterHead` only drops characters of `l`. -/
theorem matchAfterHead_le {l r : List Char} (h : matchAfterHead l = some r) :
    r.length ≤ l.length := by
  have hdw : (l.dropWhile isWs).length ≤ l.length :=
    (List.dropWhile_sublist _).length_le
  unfold matchAfterHead at h
  split at h
  · split at h
    · cases h
      simp only [List.length_drop]
      omega
    · split at h
      · cases h
        simp only [List.length_drop]
        omega
      · cases h
  · split at h
    · cases h
      simp only [List.length_drop]
      omega
    · cases h

/-- A successful marker match consumes at least the 12 characters of
`<!-- toc -->`, so the remainder is strictly shorter. -/
theorem matchMarker_length {l r : List Char} (h : matchMarker l = some r) :
    r.length < l.length := by
  unfold matchMarker at h
  split at h
  · rename_i htake
    have hlen : 8 ≤ l.length := by
      have h8 : tocHead.length = 8 := by decide
      have := congrArg List.length htake
      rw [h8, List.length_take] at this
      omega
    have := matchAfterHead_le h
    simp only [List.length_drop] at this
    omega
  · cases h

/-- A successful marker match starts with `tocHead`. -/
theorem matchMarker_take8 {l r : List Char} (h : matchMarker l = some r) :
    l.take 8 = tocHead := by
  unfold matchMarker at h
  by_cases hc : l.take 8 = tocHead
  · exact hc
  · rw [if_neg hc] at h
    cases h

/-- A list whose first eight characters are not `tocHead` has no marker
match. -/
theorem matchMarker_none_of_take8 {l : List Char} (h : l.take 8 ≠ tocHead) :
    matchMarker l = none := by
  unfold matchMarker
  rw [if_neg h]

/-- The marker regex consumes a leading `<!-- toc -->` (via the empty
alternative of the optional `stop` group) and leaves the rest. -/
theorem matchMarker_openM (t : List Char) :
    matchMarker ("<!-- toc -->".data ++ t) = some t := by
  have h1 : "<!-- toc -->".data = tocHead ++ " -->".data := rfl
  rw [h1, List.append_assoc]
  unfold matchMarker
  rw [List.take_left' (by decide), if_pos rfl, List.drop_left' (by decide)]
  have h2 : " -->".data ++ t = ' ' :: '-' :: '-' :: '>' :: t := rfl
  rw [h2]
  unfold matchAfterHead
  have hdw : List.dropWhile isWs (' ' :: '-' :: '-' :: '>' :: t)
      = '-' :: '-' :: '>' :: t := by
    rw [List.dropWhile_cons, if_pos (by decide), List.dropWhile_cons,
      if_neg (by decide)]
  rw [hdw]
  have hne : List.take 4 ('-' :: '-' :: '>' :: t) ≠ "stop".data := by
    intro h
    rw [show "stop".data = 's' :: 't' :: 'o' :: 'p' :: [] from rfl,
      List.take_succ_cons] at h
    injection h with h1 _
    exact absurd h1 (by decide)
  rw [if_neg hne,
    if_pos (show List.take 4 (' ' :: '-' :: '-' :: '>' :: t) = " -->".data
      from rfl)]
  rfl

/-- The marker regex consumes `<!-- toc`, any run of whitespace, then
`stop -->`: the greedy `\s*` takes the whole run and `stop -->` follows. -/
theorem matchMarker_wsStop {ws : List Char} (t : List Char)
    (hws : ∀ c ∈ ws, isWs c = true) :
    matchMarker (tocHead ++ (ws ++ ("stop -->".data ++ t))) = some t := by
  unfold matchMarker
  rw [List.take_left' (by decide), if_pos rfl, List.drop_left' (by decide)]
  unfold matchAfterHead
  have hdw : List.dropWhile isWs (ws ++ ("stop -->".data ++ t))
      = "stop -->".data ++ t := by
    rw [List.dropWhile_append_of_pos hws,
      show "stop -->".data ++ t
        = 's' :: 't' :: 'o' :: 'p' :: ' ' :: '-' :: '-' :: '>' :: t from rfl,
      List.dropWhile_cons, if_neg (by decide)]
  rw [hdw,
    show "stop -->".data ++ t
      = 's' :: 't' :: 'o' :: 'p' :: ' ' :: '-' :: '-' :: '>' :: t from rfl]
  rw [if_pos (show List.take 4
      ('s' :: 't' :: 'o' :: 'p' :: ' ' :: '-' :: '-' :: '>' :: t)
      = "stop".data from rfl)]
  rw [if_pos (show List.take 4 (List.drop 4
      ('s' :: 't' :: 'o' :: 'p' :: ' ' :: '-' :: '-' :: '>' :: t))
      = " -->".data from rfl)]
  rfl

/-- The marker regex consumes a leading `<!-- tocstop -->`. -/
theorem matchMarker_closeM (t : List Char) :
    matchMarker (closeMarker ++ t) = some t := by
  have h1 : closeMarker ++ t = tocHead ++ ([] ++ ("stop -->".data ++ t)) := rfl
  rw [h1]
  exact matchMarker_wsStop t (by intro c hc; cases hc)

/-! Supporting lemmas about the splitter. -/

/-- The splitter's result does not depend on the fuel, as long as the fuel
exceeds the text length (each scanning step consumes at least one
character). -/
theorem splitAux_fuel (f1 : Nat) {f2 : Nat} {l cur : List Char}
    (h1 : l.length < f1) (h2 : l.length < f2) :
    splitAux f1 l cur = splitAux f2 l cur := by
  induction f1 using Nat.strong_induction_on generalizing f2 l cur with
  | _ f1 ih =>
    match f1, h1 with
    | a + 1, h1 =>
      match f2, h2 with
      | b + 1, h2 =>
        cases hm : matchMarker l with
        | some rest =>
          simp only [splitAux, hm]
          have hr := matchMarker_length hm
          rw [ih a (Nat.lt_succ_self a) (show rest.length < a by omega)
            (show rest.length < b by omega)]
        | none =>
          cases l with
          | nil => simp [splitAux, hm]
          | cons c t =>
            simp only [splitAux, hm]
            simp only [List.length_cons] at h1 h2
            exact ih a (Nat.lt_succ_self a) (show t.length < a by omega)
              (show t.length < b by omega)

/-- Scanning a list in which no suffix starts with `tocHead` produces a
single segment. -/
theorem splitAux_no_match {l : List Char}
    (h : ∀ i, ((l.drop i).take 8) ≠ tocHead) (acc : List Char) {f : Nat}
    (hf : l.length < f) :
    splitAux f l acc = [acc.reverse ++ l] := by
  induction l generalizing acc f with
  | nil =>
    match f, hf with
    | a + 1, _ =>
      simp [splitAux, matchMarker_none_of_take8 (l := []) (by decide)]
  | cons c t ih =>
    match f, hf with
    | a + 1, hf =>
      simp only [splitAux, matchMarker_none_of_take8
        (by have h0 := h 0; rwa [List.drop_zero] at h0)]
      rw [ih (fun i => by have hi := h (i + 1); rwa [List.drop_succ_cons] at hi)
        (c :: acc) (by simp only [List.length_cons] at hf; omega)]
      simp

/-- Scanning may skip over a prefix in which no marker match can start. -/
theorem splitAux_skip {a : List Char} (rest acc : List Char)
    (h : ∀ i < a.length, (((a ++ rest).drop i).take 8) ≠ tocHead) {f : Nat}
    (hf : (a ++ rest).length < f) :
    splitAux f (a ++ rest) acc
      = splitAux (rest.length + 1) rest (a.reverse ++ acc) := by
  induction a generalizing acc f with
  | nil =>
    simp only [List.nil_append, List.reverse_nil] at hf ⊢
    exact splitAux_fuel f hf (Nat.lt_succ_self _)
  | cons c a' ih =>
    match f, hf with
    | g + 1, hf =>
      show splitAux (g + 1) (c :: (a' ++ rest)) acc = _
      conv_lhs => rw [splitAux]
      rw [matchMarker_none_of_take8
        (by
          have h0 := h 0 (by simp)
          rwa [List.drop_zero, List.cons_append] at h0)]
      show splitAux g (a' ++ rest) (c :: acc) = _
      rw [ih (c :: acc) (fun i hi => by
          have hi1 := h (i + 1) (by simp only [List.length_cons]; omega)
          rwa [List.cons_append, List.drop_succ_cons] at hi1)
        (by simp only [List.cons_append, List.length_cons] at hf; omega)]
      simp

/-- Scanning cuts a segment exactly at a marker match. -/
theorem splitAux_match {l rest : List Char} (h : matchMarker l = some rest)
    (acc : List Char) {f : Nat} (hf : l.length < f) :
    splitAux f l acc
      = acc.reverse :: splitAux (rest.length + 1) rest [] := by
  match f, hf with
  | a + 1, hf =>
    cases l with
    | nil =>
      rw [matchMarker_none_of_take8 (l := []) (by decide)] at h
      cases h
    | cons c t =>
      conv_lhs => rw [splitAux]
      rw [h]
      show acc.reverse :: splitAux a rest [] = _
      have hr := matchMarker_length h
      rw [splitAux_fuel a (show rest.length < a by omega)
        (Nat.lt_succ_self _)]

/-- Splitting the text that `insert` assembles for a replaced TOC — a
`<!-- toc`-free segment, the opening marker, a `<!-- toc`-free rendered TOC,
the closing marker, a `<!-- toc`-free trailing segment and a run of line
feeds, glued with blank lines — yields exactly the three trimmed
segments. -/
theorem sectionsOf_spliced (a T c nl : List Char)
    (ha : hasTocB a = false) (hT : hasTocB T = false) (hc : hasTocB c = false)
    (hnl : ∀ x ∈ nl, x = '\n') :
    sectionsOf (a ++ '\n' :: '\n' ::
      ("<!-- toc -->".data ++ '\n' :: '\n' ::
        (T ++ '\n' :: '\n' ::
          (closeMarker ++ '\n' :: '\n' :: (c ++ nl)))))
      = [trimList a, trimList T, trimList c] := by
  have hnl2 : ∀ x ∈ ['\n', '\n'], isWs x = true := by decide
  have hA : hasTocB (a ++ ['\n', '\n']) = false :=
    hasTocB_append_nl_run ha (by intro x hx; simpa using hx)
  have hB : hasTocB ('\n' :: '\n' :: (T ++ ['\n', '\n'])) = false :=
    hasTocB_cons_nl (hasTocB_cons_nl
      (hasTocB_append_nl_run hT (by intro x hx; simpa using hx)))
  have hC : hasTocB ('\n' :: '\n' :: (c ++ nl)) = false :=
    hasTocB_cons_nl (hasTocB_cons_nl (hasTocB_append_nl_run hc hnl))
  have hcross :
      ∀ (a' rest : List Char), hasTocB a' = false →
        a'.getLast? = some '\n' →
        ∀ i < a'.length, (((a' ++ rest).drop i).take 8) ≠ tocHead := by
    intro a' rest ha' hlast i hi
    by_cases hcut : i + 8 ≤ a'.length
    · rw [List.drop_append_of_le_length (by omega),
        List.take_append_of_le_length (by simp only [List.length_drop]; omega)]
      exact take8_drop_ne_of_hasTocB ha' i
    · apply ne_tocHead_of_mem_newline
      rw [List.drop_append_of_le_length (by omega),
        List.take_append_eq_append_take,
        List.take_of_length_le (by simp only [List.length_drop]; omega)]
      apply List.mem_append_left
      obtain ⟨ys, hys⟩ := List.getLast?_eq_some_iff.mp hlast
      have hylen : i ≤ ys.length := by
        have := congrArg List.length hys
        simp only [List.length_append, List.length_singleton] at this
        omega
      rw [hys, List.drop_append_of_le_length hylen]
      exact List.mem_append_right _ (List.mem_cons_self _ _)
  unfold sectionsOf
  rw [show a ++ '\n' :: '\n' ::
      ("<!-- toc -->".data ++ '\n' :: '\n' ::
        (T ++ '\n' :: '\n' ::
          (closeMarker ++ '\n' :: '\n' :: (c ++ nl))))
    = (a ++ ['\n', '\n']) ++
      ("<!-- toc -->".data ++
        (('\n' :: '\n' :: (T ++ ['\n', '\n'])) ++
          (closeMarker ++ ('\n' :: '\n' :: (c ++ nl))))) by
    simp [List.append_assoc]]
  rw [splitAux_skip _ []
    (hcross _ _ hA (by rw [List.getLast?_append]; rfl))
    (Nat.lt_succ_self _)]
  rw [splitAux_match (matchMarker_openM _) _ (Nat.lt_succ_self _)]
  rw [splitAux_skip _ []
    (hcross _ _ hB (by
      rw [show ('\n' :: '\n' :: (T ++ ['\n', '\n'])) =
        (('\n' :: '\n' :: T) ++ ['\n', '\n']) by simp]
      rw [List.getLast?_append]
      rfl))
    (Nat.lt_succ_self _)]
  rw [splitAux_match (matchMarker_closeM _) _ (Nat.lt_succ_self _)]
  rw [splitAux_no_match (take8_drop_ne_of_hasTocB hC) []
    (Nat.lt_succ_self _)]
  simp only [List.map_cons, List.map_nil, List.reverse_reverse,
    List.append_nil, List.nil_append]
  have hwnl : ∀ x ∈ nl, isWs x = true := by
    intro x hx
    rw [hnl x hx]
    decide
  rw [trimList_append_ws (by intro x hx; simpa using hnl2 x hx)]
  rw [show ('\n' :: '\n' :: (T ++ ['\n', '\n'])) =
    ['\n', '\n'] ++ (T ++ ['\n', '\n']) from rfl]
  rw [trimList_ws_append hnl2,
    trimList_append_ws (by intro x hx; simpa using hnl2 x hx)]
  simp only [List.reverse_nil, List.nil_append]
  rw [show ('\n' :: '\n' :: (c ++ nl)) = ['\n', '\n'] ++ (c ++ nl) from rfl,
    trimList_ws_append hnl2, trimList_append_ws hwnl]

/-! Supporting lemmas about trailing newlines and `insertE`. -/

/-- Every character of the captured trailing run is a line feed. -/
theorem trailingNewlines_all_nl {l : List Char} :
    ∀ c ∈ trailingNewlines l, c = '\n' := by
  intro c hc
  unfold trailingNewlines at hc
  rw [List.mem_reverse] at hc
  have := List.mem_takeWhile_imp hc
  simpa using this

/-- The trailing run of a text whose last pre-run character is not a line
feed is exactly the appended run. -/
theorem trailingNewlines_append {x w : List Char} (hw : ∀ c ∈ w, c = '\n')
    (hx : ∀ c, x.getLast? = some c → c ≠ '\n') :
    trailingNewlines (x ++ w) = w := by
  unfold trailingNewlines
  rw [List.reverse_append, List.takeWhile_append_of_pos (by
    intro a ha
    rw [List.mem_reverse] at ha
    simp [hw a ha])]
  have hx0 : x.reverse.takeWhile (fun c => c = '\n') = [] := by
    cases hxr : x.reverse with
    | nil => rfl
    | cons a as =>
      rw [List.takeWhile_cons, if_neg]
      have : x.getLast? = some a := by
        rw [List.getLast?_eq_head?_reverse, hxr]
        rfl
      simpa using hx a this
  rw [hx0, List.append_nil, List.reverse_reverse]

/-- Every segment produced by the splitter is already trimmed. -/
theorem trimFixed_of_sectionsOf {l : List Char} {ss : List (List Char)}
    (h : sectionsOf l = ss) : ∀ s ∈ ss, trimList s = s := by
  intro s hs
  subst h
  unfold sectionsOf at hs
  rw [List.mem_map] at hs
  obtain ⟨raw, _, rfl⟩ := hs
  exact trimList_idem raw

/-- `insertE` on a front-matter-free document with exactly three segments:
the middle segment is replaced by the opening marker plus the TOC rendered
from the **last** segment, the closing marker is inserted, and everything is
rejoined with blank lines plus the original trailing newline run. -/
theorem insertE_three {d : InsertDeps} {doc : String} {s0 s1 s2 : List Char}
    (hfm : doc.data.take 3 ≠ "---".data)
    (hsec : sectionsOf doc.data = [s0, s1, s2]) :
    insertE d doc = Except.ok (String.mk (joinSections
      [s0, openMarker ++ (d.tocContent (String.mk s2)).data, closeMarker, s2]
      ++ trailingNewlines doc.data)) := by
  unfold insertE
  rw [if_neg hfm, if_neg hfm]
  simp only [hsec, List.length_cons, List.length_nil]
  norm_num

/-- `insertE` on a front-matter-free document with more than three segments
fails with the one-TOC-per-file error. -/
theorem insertE_err {d : InsertDeps} {doc : String}
    (hfm : doc.data.take 3 ≠ "---".data)
    (hlen : (sectionsOf doc.data).length > 3) :
    insertE d doc = Except.error tocErr := by
  unfold insertE
  rw [if_neg hfm, if_neg hfm]
  simp only []
  rw [if_pos hlen]

/-! Supporting lemmas about the extraction pipeline. -/

mutual

/-- `processHeadingToken` preserves the index invariant: the `i` fields of
the accumulated headings are `0 .. N-1` in order, because each pushed record
gets `i = headings.length` at the moment of the push. -/
theorem pht_index (opts : Options) (tok : Tok) (depth : Nat) (st : ExtState)
    (h : st.headings.map (fun x => x.i) = List.range st.headings.length) :
    (processHeadingToken opts tok depth st).headings.map (fun x => x.i)
      = List.range (processHeadingToken opts tok depth st).headings.length := by
  unfold processHeadingToken
  split
  · exact h
  · cases tok with
    | heading d text tokens =>
      apply phts_index
      simp only [List.map_append, List.length_append, List.map_cons,
        List.map_nil, List.length_cons, List.length_nil]
      rw [h, ← List.range_succ]
    | text t => exact h
    | link a b e => exact h
    | strong a b => exact h
    | em a b => exact h
    | codespan a => exact h
    | image a => exact h
    | generic a b => exact h

/-- `processHeadingTokens` preserves the index invariant. -/
theorem phts_index (opts : Options) (toks : List Tok) (depth : Nat)
    (st : ExtState)
    (h : st.headings.map (fun x => x.i) = List.range st.headings.length) :
    (processHeadingTokens opts toks depth st).headings.map (fun x => x.i)
      = List.range
          (processHeadingTokens opts toks depth st).headings.length := by
  unfold processHeadingTokens
  cases toks with
  | nil => exact h
  | cons t ts => exact phts_index opts ts depth _ (pht_index opts t depth st h)

end

/-- The extracted heading list carries indices `0 .. N-1` in order. -/
theorem extract_index (opts : Options) (toks : List Tok) :
    (extractHeadings opts toks).headings.map (fun x => x.i)
      = List.range (extractHeadings opts toks).headings.length := by
  unfold extractHeadings
  have h0 : (({ seen := [], headings := [] } : ExtState)).headings.map
      (fun x => x.i)
      = List.range
          (({ seen := [], headings := [] } : ExtState)).headings.length := rfl
  generalize ({ seen := [], headings := [] } : ExtState) = st0 at h0 ⊢
  induction toks generalizing st0 with
  | nil => simpa using h0
  | cons t ts ih =>
    simp only [List.foldl_cons]
    apply ih
    cases t with
    | heading d text tokens => exact pht_index opts _ 0 st0 h0
    | text a => exact h0
    | link a b e => exact h0
    | strong a b => exact h0
    | em a b => exact h0
    | codespan a => exact h0
    | image a => exact h0
    | generic a b => exact h0

/-- `tocLine` only reads the `maxdepth`, `indent`, `linkify`, `titleize` and
`stripHeadingTags` fields of the options. -/
theorem tocLine_congr {o1 o2 : Options} (hmd : o1.maxdepth = o2.maxdepth)
    (hind : o1.indent = o2.indent) (hlink : o1.linkify = o2.linkify)
    (htit : o1.titleize = o2.titleize)
    (hsht : o1.stripHeadingTags = o2.stripHeadingTags)
    (b : StrOrArr) (hl : Nat) (h : HeadingToken) :
    tocLine o1 b hl h = tocLine o2 b hl h := by
  unfold tocLine effMaxdepth effIndent titleizeDefault
  rw [hmd, hind, hlink, htit, hsht]

/-- The output of the whitespace-run replacement contains no tab: every
emitted character is either the hyphen or a non-whitespace input
character. -/
theorem wsRunsToHyphen_no_tab (l : List Char) : '\t' ∉ wsRunsToHyphen l := by
  suffices h : ∀ (b : Bool) (l : List Char), '\t' ∉ wsRunsGo b l from h false l
  intro b l
  induction l generalizing b with
  | nil =>
    intro h
    rw [show wsRunsGo b [] = [] from by cases b <;> rfl] at h
    cases h
  | cons c t ih =>
    simp only [wsRunsGo]
    split
    · split
      · exact ih true
      · intro hmem
        rcases List.mem_cons.mp hmem with h | h
        · exact absurd h (by decide)
        · exact ih true h
    · rename_i hws
      intro hmem
      rcases List.mem_cons.mp hmem with h | h
      · rw [← h] at hws
        exact hws (by decide)
      · exact ih false h

/-- The tab replacement is the identity on tab-free text. -/
theorem tabsToDoubleHyphen_id {l : List Char} (hmem : '\t' ∉ l) :
    tabsToDoubleHyphen l = l := by
  induction l with
  | nil => rfl
  | cons c t ih =>
    unfold tabsToDoubleHyphen
    simp only [List.foldr_cons]
    rw [if_neg (by intro he; exact hmem (he ▸ List.mem_cons_self _ _))]
    have := ih (fun h => hmem (List.mem_cons_of_mem _ h))
    unfold tabsToDoubleHyphen at this
    rw [this]

/-- A cons whose head is not `<` cannot begin a `tocHead` occurrence. -/
theorem take8_cons_ne_tocHead {c : Char} (hc : c ≠ '<') (l : List Char) :
    List.take 8 (c :: l) ≠ tocHead := by
  intro he
  rw [show List.take 8 (c :: l) = c :: List.take 7 l from rfl,
    show tocHead = '<' :: "!-- toc".data from rfl] at he
  injection he with h1 _
  exact hc h1

/-! The claims. -/

/-- C1: the claim states that headings with identical content receive
duplicate ordinals `0, 1, 2, ...` in document order.  The code cannot
produce a non-zero ordinal: `!this.seen[text]` is true both for an absent
key and for a stored `0`, so every occurrence stores and reads `0` and the
increment branch is unreachable.  On the lexer's tokens for
`"## A\n## A\n"` both records carry `seen = 0`, where the claim requires
`0` then `1`. -/
theorem c1_seen_always_zero :
    (adapterParse {} [Tok.heading 2 "A" [Tok.text "A"],
      Tok.heading 2 "A" [Tok.text "A"]]).json.map (fun h => h.seen)
      = [0, 0] := by decide

/-- C2: the claim states that no heading record in the json output has
`level` greater than the configured `maxdepth`.  Extraction compares the
recursion-depth argument (0 for every top-level heading), not the token's
own depth, and `generateJSONOutput` copies the heading list unfiltered, so
with `maxdepth = 2` the document `"### A"` still yields a `lvl = 3` record
in `json` — while the rendered `content` (which re-checks `lvl`) is empty,
contradicting the code's own "already filtered" comment. -/
theorem c2_json_keeps_overdepth_heading :
    (adapterParse { maxdepth := 2 }
      [Tok.heading 3 "A" [Tok.text "A"]]).json.map (fun h => h.lvl) = [3]
    ∧ (adapterParse { maxdepth := 2 }
      [Tok.heading 3 "A" [Tok.text "A"]]).content = "" := by decide

/-- C3 counterexample: the claim states that a split into 0 or 1 segments
(no marker) makes `insert` fail; on a marker-free document the code splits
into one segment, throws nothing, and returns the trimmed document. -/
theorem c3_single_segment_insert_succeeds :
    splitMarkers "hello" = ["hello"]
    ∧ insertE trivialDeps "hello" = Except.ok "hello" :=
  ⟨by decide, rfl⟩

/-- C3 amended: only a split into more than 3 segments (three or more
markers) makes `insert` fail with the one-TOC-per-file error; a 0-segment
split cannot occur, and a 1-segment (marker-free) document is returned
without error. -/
theorem c3_error_only_above_three_segments (d : InsertDeps) (doc : String)
    (hfm : doc.data.take 3 ≠ "---".data)
    (hlen : (splitMarkers doc).length > 3) :
    insertE d doc = Except.error tocErr := by
  apply insertE_err hfm
  unfold splitMarkers at hlen
  rwa [List.length_map] at hlen

/-- C3 witness: a document with three opening markers (four segments) is
rejected. -/
theorem c3_error_witness :
    insertE trivialDeps "a<!-- toc -->b<!-- tocstop -->c<!-- toc -->d"
      = Except.error tocErr :=
  c3_error_only_above_three_segments trivialDeps
    "a<!-- toc -->b<!-- tocstop -->c<!-- toc -->d" (by decide) (by decide)

/-- C4: the claim states that parsing `"## A\n## A\n"` yields a second
record with slug `"a-1"` and duplicateOrdinal 1.  The code never wires the
`seen` count into `slugify`'s `num` option (and the `seen` count itself is
stuck at 0), so both records carry slug `"a"` and `seen = 0`. -/
theorem c4_no_slug_disambiguation :
    (adapterParse {} [Tok.heading 2 "A" [Tok.text "A"],
      Tok.heading 2 "A" [Tok.text "A"]]).json
      = [⟨"A", "a", 2, 0, 0⟩, ⟨"A", "a", 2, 1, 0⟩] := by decide

/-- C5 counterexample: the claim states that every tab contributes `"--"`
to the slug.  The whitespace replacement `/\s+/g → "-"` runs first and
consumes every tab, so `slugify "a\tb"` is `"a-b"`, not `"a--b"`. -/
theorem c5_tab_single_hyphen :
    slugify {} "a\tb" = "a-b" ∧ slugify {} "a\tb" ≠ "a--b" := by decide

/-- C5 amended: each run of whitespace (tabs included) becomes a single
hyphen, and the subsequent tab replacement `/\t/g → "--"` is dead code: no
tab survives the whitespace replacement, so the tab stage never changes its
input. -/
theorem c5_tab_stage_is_dead (l : List Char) :
    tabsToDoubleHyphen (wsRunsToHyphen l) = wsRunsToHyphen l :=
  tabsToDoubleHyphen_id (wsRunsToHyphen_no_tab l)

/-- C6 counterexample: the claim's second example is wrong on the code:
`slugify "C++ & Go"` is `"c--go"` (the space-hyphens survive, only `+` and
`&` are removed), not `"c-go"`. -/
theorem c6_examples_as_claimed_false :
    ¬ (slugify {} "Hello World!" = "hello-world"
      ∧ slugify {} "C++ & Go" = "c-go") := by decide

/-- C6 amended: with default configuration `slugify "Hello World!"` is
`"hello-world"` and `slugify "C++ & Go"` is `"c--go"`. -/
theorem c6_examples_amended :
    slugify {} "Hello World!" = "hello-world"
    ∧ slugify {} "C++ & Go" = "c--go" := by decide

/-- C7 counterexample: the claim states idempotence for every document that
splits into exactly 3 segments.  When the segment after the closing marker
is empty, the rejoin leaves the document ending in a blank line whose
newlines are captured again by the next run, so each application appends two
more line feeds: `insert` is not idempotent there although the heading
content after the TOC (empty) is unchanged. -/
theorem c7_not_idempotent_on_empty_post :
    (splitMarkers "x\n\n<!-- toc -->\nold\n<!-- tocstop -->").length = 3
    ∧ insertE trivialDeps "x\n\n<!-- toc -->\nold\n<!-- tocstop -->"
      = Except.ok "x\n\n<!-- toc -->\n\n\n\n<!-- tocstop -->\n\n"
    ∧ insertE trivialDeps "x\n\n<!-- toc -->\n\n\n\n<!-- tocstop -->\n\n"
      = Except.ok ("x\n\n<!-- toc -->\n\n\n\n<!-- tocstop -->\n\n"
          ++ "\n\n")
    ∧ ("x\n\n<!-- toc -->\n\n\n\n<!-- tocstop -->\n\n" ++ "\n\n")
      ≠ "x\n\n<!-- toc -->\n\n\n\n<!-- tocstop -->\n\n" :=
  ⟨by decide, rfl, rfl, by decide⟩

/-- C7 amended: `insert` is idempotent on a front-matter-free document that
splits into exactly 3 segments, provided the segment after the TOC is
nonempty and neither the outer segments nor the rendered TOC contain the
marker-opening text `<!-- toc` (with the external TOC renderer fixed, the
heading content after the TOC is unchanged between the two applications, as
the claim assumes). -/
theorem c7_insert_idempotent (d : InsertDeps) (doc a b c res : String)
    (hfm : doc.data.take 3 ≠ "---".data)
    (hsplit : splitMarkers doc = [a, b, c])
    (ha : hasTocB a.data = false)
    (hc : hasTocB c.data = false)
    (ht : hasTocB (d.tocContent c).data = false)
    (hcne : c ≠ "")
    (hres : insertE d doc = Except.ok res)
    (hfm2 : res.data.take 3 ≠ "---".data) :
    insertE d res = Except.ok res := by
  have hsec : sectionsOf doc.data = [a.data, b.data, c.data] := by
    have h1 := congrArg (List.map String.data) hsplit
    unfold splitMarkers at h1
    rw [List.map_map,
      show String.data ∘ String.mk = (id : List Char → List Char) from rfl,
      List.map_id] at h1
    simpa using h1
  have h3 := insertE_three (d := d) hfm hsec
  rw [hres] at h3
  injection h3 with hresR
  have htf := trimFixed_of_sectionsOf hsec
  have hta : trimList a.data = a.data := htf _ (by simp)
  have htc : trimList c.data = c.data := htf _ (by simp)
  have hcd : c.data ≠ [] := by
    intro hnil
    apply hcne
    show c = ""
    have : c = String.mk c.data := rfl
    rw [this, hnil]
  have hclast : ∀ ch, c.data.getLast? = some ch → ch ≠ '\n' := by
    intro ch hch heq
    subst heq
    have : isWs '\n' = false := trimList_getLast_not_ws (htc ▸ hch)
    exact absurd this (by decide)
  set T : List Char := (d.tocContent (String.mk c.data)).data with hT
  set NL : List Char := trailingNewlines doc.data with hNL
  have hNLnl : ∀ x ∈ NL, x = '\n' := trailingNewlines_all_nl
  have hrd : res.data = a.data ++ '\n' :: '\n' ::
      ("<!-- toc -->".data ++ '\n' :: '\n' ::
        (T ++ '\n' :: '\n' ::
          (closeMarker ++ '\n' :: '\n' :: (c.data ++ NL)))) := by
    rw [hresR]
    show joinSections
      [a.data, openMarker ++ T, closeMarker, c.data] ++ NL = _
    simp only [joinSections]
    rw [show openMarker = "<!-- toc -->".data ++ ['\n', '\n'] from rfl]
    simp [List.append_assoc]
  have hsec2 : sectionsOf res.data = [a.data, trimList T, c.data] := by
    rw [hrd, sectionsOf_spliced a.data T c.data NL ha ht hc hNLnl, hta, htc]
  have hNL2 : trailingNewlines res.data = NL := by
    rw [hrd]
    rw [show a.data ++ '\n' :: '\n' ::
        ("<!-- toc -->".data ++ '\n' :: '\n' ::
          (T ++ '\n' :: '\n' ::
            (closeMarker ++ '\n' :: '\n' :: (c.data ++ NL))))
      = ((a.data ++ '\n' :: '\n' ::
        ("<!-- toc -->".data ++ '\n' :: '\n' ::
          (T ++ '\n' :: '\n' ::
            (closeMarker ++ ['\n', '\n'])))) ++ c.data) ++ NL by
      simp [List.append_assoc]]
    apply trailingNewlines_append hNLnl
    intro ch hch
    rw [List.getLast?_append] at hch
    obtain ⟨ch0, hch0⟩ : ∃ x, c.data.getLast? = some x := by
      cases h0 : c.data.getLast? with
      | none => exact absurd (List.getLast?_eq_none_iff.mp h0) hcd
      | some x => exact ⟨x, rfl⟩
    rw [hch0] at hch
    have : ch0 = ch := by simpa [Option.or] using hch
    subst this
    exact hclast _ hch0
  have h3' := insertE_three (d := d) hfm2 hsec2
  rw [h3', hNL2, hresR]

/-- C7 witness: idempotence on a concrete document with a nonempty segment
after the closing marker. -/
theorem c7_insert_idempotent_witness :
    insertE sampleDeps
      "x\n\n<!-- toc -->\n\n- [A](#a)\n\n<!-- tocstop -->\n\npost"
      = Except.ok
        "x\n\n<!-- toc -->\n\n- [A](#a)\n\n<!-- tocstop -->\n\npost" :=
  c7_insert_idempotent sampleDeps
    "x\n\n<!-- toc -->\nold\n<!-- tocstop -->\npost" "x" "old" "post"
    "x\n\n<!-- toc -->\n\n- [A](#a)\n\n<!-- tocstop -->\n\npost"
    (by decide) (by decide) (by decide) (by decide) (by decide)
    (by decide) rfl (by decide)

/-- C8 counterexample: the claim states index density after any `firsth1`
truncation and filtering.  Indices are assigned before `processHeadings`
runs, so with `firsth1 = false` the surviving record of a two-heading
document keeps index 1 — the produced list is `[1]`, not `0..N-1`. -/
theorem c8_not_dense_without_firsth1 :
    ¬ ((adapterParse { firsth1 := false }
        [Tok.heading 1 "A" [Tok.text "A"],
          Tok.heading 1 "B" [Tok.text "B"]]).json.map (fun h => h.i)
      = List.range (adapterParse { firsth1 := false }
        [Tok.heading 1 "A" [Tok.text "A"],
          Tok.heading 1 "B" [Tok.text "B"]]).json.length) := by decide

/-- C8 amended: with the default `firsth1 = true` and no filter the json
list's `index` fields are exactly `0 .. N-1` in order (truncation or
filtering breaks density, since indices are assigned at extraction time). -/
theorem c8_index_dense_default (opts : Options) (toks : List Tok)
    (h1 : opts.firsth1 = true) (h2 : opts.filter = none) :
    (adapterParse opts toks).json.map (fun h => h.i)
      = List.range (adapterParse opts toks).json.length := by
  show (processHeadings opts (extractHeadings opts toks).headings).map _
    = List.range
        (processHeadings opts (extractHeadings opts toks).headings).length
  unfold processHeadings
  rw [h1, h2]
  simp only [if_true]
  exact extract_index opts toks

/-- C8 witness: index density on a concrete default-configuration parse. -/
theorem c8_index_dense_default_witness :
    (adapterParse {} [Tok.heading 1 "A" [Tok.text "A"],
      Tok.heading 2 "B" [Tok.text "B"]]).json.map (fun h => h.i)
      = List.range (adapterParse {} [Tok.heading 1 "A" [Tok.text "A"],
        Tok.heading 2 "B" [Tok.text "B"]]).json.length :=
  c8_index_dense_default {} [Tok.heading 1 "A" [Tok.text "A"],
    Tok.heading 2 "B" [Tok.text "B"]] rfl rfl

/-- C9: a `bullets` option supplied as a plain string is never an array, so
`Array.isArray` sends the renderer to `chars || ["-", "*", "+"]`: the
rendered content is identical to a call without any `bullets` option; only
an array-valued `bullets` can affect the rendered bullets. -/
theorem c9_string_bullets_ignored (opts : Options) (hs : List HeadingToken)
    (s : String) (hb : opts.bullets = some (.str s)) :
    generateTOCContent opts hs
      = generateTOCContent { opts with bullets := none } hs := by
  unfold generateTOCContent withAppend
  have hrb : resolveBullets opts
      = resolveBullets { opts with bullets := none } := by
    unfold resolveBullets
    rw [hb]
  rw [hrb]
  have htl : tocLine { opts with bullets := none }
      (resolveBullets { opts with bullets := none }) (getHighestLevel hs)
      = tocLine opts
        (resolveBullets { opts with bullets := none }) (getHighestLevel hs) :=
    funext (fun h => tocLine_congr rfl rfl rfl rfl rfl _ _ h)
  rw [htl]

/-- C9 witness: a string-valued `bullets` produces the same rendering as no
`bullets` option on a concrete heading list. -/
theorem c9_string_bullets_ignored_witness :
    generateTOCContent { bullets := some (.str "xy") }
      [⟨"A", "a", 2, 0, 0⟩]
      = generateTOCContent
        { ({ bullets := some (.str "xy") } : Options) with bullets := none }
        [⟨"A", "a", 2, 0, 0⟩] :=
  c9_string_bullets_ignored { bullets := some (.str "xy") }
    [⟨"A", "a", 2, 0, 0⟩] "xy" rfl

/-- C10: the default marker pattern `<!-- toc(?:\s*stop)? -->` treats
`<!-- toc` + any run of whitespace + `stop -->` — including `<!-- tocstop -->`
(empty run) and `<!-- toc stop -->` — as one marker: the variant is consumed
by the split exactly like `<!-- toc -->`, producing the two surrounding
segments that the segment-count policy then counts. -/
theorem c10_whitespace_stop_variants (ws : String)
    (hws : ∀ ch ∈ ws.data, isWs ch = true) :
    splitMarkers ("x<!-- toc" ++ ws ++ "stop -->y") = ["x", "y"]
    ∧ splitMarkers ("x<!-- toc" ++ ws ++ "stop -->y")
      = splitMarkers "x<!-- toc -->y" := by
  have hx : splitMarkers ("x<!-- toc" ++ ws ++ "stop -->y") = ["x", "y"] := by
    unfold splitMarkers sectionsOf
    rw [show ("x<!-- toc" ++ ws ++ "stop -->y").data
        = ['x'] ++ (tocHead ++ (ws.data ++ ("stop -->".data ++ ['y']))) by
      rw [String.data_append, String.data_append]
      simp [List.append_assoc]
      rfl]
    rw [splitAux_skip _ []
      (by
        intro i hi
        have hi0 : i = 0 := by simpa using hi
        subst hi0
        rw [List.drop_zero]
        exact take8_cons_ne_tocHead (by decide) _)
      (Nat.lt_succ_self _)]
    rw [splitAux_match (matchMarker_wsStop ['y'] hws) _ (Nat.lt_succ_self _)]
    rw [splitAux_no_match
      (by
        intro i
        cases i with
        | zero => exact take8_cons_ne_tocHead (by decide) _
        | succ n =>
          rw [List.drop_succ_cons, List.drop_nil]
          decide)
      [] (Nat.lt_succ_self _)]
    decide
  exact ⟨hx, by rw [hx]; decide⟩

/-- C10 witness: the variant with a mixed whitespace run between `toc` and
`stop` splits exactly like the plain marker. -/
theorem c10_whitespace_stop_variants_witness :
    splitMarkers ("x<!-- toc" ++ "\t " ++ "stop -->y") = ["x", "y"]
    ∧ splitMarkers ("x<!-- toc" ++ "\t " ++ "stop -->y")
      = splitMarkers "x<!-- toc -->y" :=
  c10_whitespace_stop_variants "\t " (by decide)

end MarkdownToc
